import Mathlib

/-!
# Number daemon: store and request handling

A shallow embedding of `src/common.h` and `src/daemon.cpp`.

* `std::map<int32_t, int64_t>` is represented by its in-order sequence of
  entries, a list of `(number, timestamp)` pairs; a map the program can hold
  has strictly ascending keys (`StdMap.WF`).
* The wall clock, the results of `read` and the results of `write` belong to
  the environment and are explicit inputs.
* `int32_t` / `int64_t` fields are `Int`; the code compares and copies them
  and does no arithmetic on them.
-/

namespace NumberDaemon

/-! ## common.h -/

/-- The enumerators of `enum class MessageType`, by their underlying value. -/
def INSERT : Int := 0
def DELETE : Int := 1
def PRINT_ALL : Int := 2
def DELETE_ALL : Int := 3
def FIND : Int := 4
def RESPONSE_SUCCESS : Int := 5
def RESPONSE_ERROR : Int := 6
def RESPONSE_DATA : Int := 7

/-- The frame `struct IPCMessage`. The discriminant is kept as the raw
underlying integer, since a frame read from the socket may carry any value.
The `char error_msg[256]` buffer is represented by the C string it holds. -/
structure IPCMessage where
  type : Int
  number : Int
  timestamp : Int
  error_msg : String
  deriving DecidableEq, Repr

/-- The record `struct NumberEntry`. -/
structure NumberEntry where
  number : Int
  timestamp : Int
  deriving DecidableEq, Repr

/-! ## std::map<int32_t, int64_t> -/

/-- In-order entries of the map. -/
abbrev StdMap := List (Int × Int)

namespace StdMap

/-- Keys strictly ascending: the shape of every `std::map`. -/
def WF (m : StdMap) : Prop := m.Pairwise (fun a b => a.1 < b.1)

instance (m : StdMap) : Decidable (WF m) :=
  inferInstanceAs (Decidable (List.Pairwise (fun (a b : Int × Int) => a.1 < b.1) m))

/-- The call `m.emplace(k, v)`: adds the entry at its ordered position unless
the key is already there; the flag tells whether the entry was added. -/
def emplace : StdMap → Int → Int → StdMap × Bool
  | [], k, v => ([(k, v)], true)
  | e :: rest, k, v =>
    if k < e.1 then ((k, v) :: e :: rest, true)
    else if k = e.1 then (e :: rest, false)
    else ((e :: (emplace rest k v).1), (emplace rest k v).2)

/-- The call `m.erase(k)`: removes the entry with key `k`, returns how many
entries were removed. -/
def erase : StdMap → Int → StdMap × Nat
  | [], _ => ([], 0)
  | e :: rest, k =>
    if e.1 = k then (rest, 1)
    else ((e :: (erase rest k).1), (erase rest k).2)

/-- The test `m.find(k) != m.end()`. -/
def hasKey : StdMap → Int → Bool
  | [], _ => false
  | e :: rest, k => if e.1 = k then true else hasKey rest k

end StdMap

/-! ## class NumberStore -/

/-- The class `NumberStore`; the mutex has no sequential content. -/
structure NumberStore where
  numbers : StdMap
  deriving DecidableEq, Repr

namespace NumberStore

/-- The store of a freshly constructed daemon. -/
def empty : NumberStore := ⟨[]⟩

/-- `NumberStore::insert`; `now` is the clock reading, in seconds since the
epoch, taken inside the call. -/
def insert (s : NumberStore) (now : Int) (number : Int) : NumberStore × Bool :=
  let timestamp := now
  let result := s.numbers.emplace number timestamp
  (⟨result.1⟩, result.2)

/-- `NumberStore::remove`. -/
def remove (s : NumberStore) (number : Int) : NumberStore × Bool :=
  let r := s.numbers.erase number
  (⟨r.1⟩, decide (r.2 > 0))

/-- `NumberStore::clear`. -/
def clear (_s : NumberStore) : NumberStore := ⟨[]⟩

/-- `NumberStore::contains`. -/
def contains (s : NumberStore) (number : Int) : Bool :=
  s.numbers.hasKey number

/-- `NumberStore::getAllSorted`: one `NumberEntry` per map entry, in map order. -/
def getAllSorted (s : NumberStore) : List NumberEntry :=
  s.numbers.map (fun p => NumberEntry.mk p.1 p.2)

/-- `NumberStore::size`. -/
def size (s : NumberStore) : Nat := s.numbers.length

end NumberStore

/-! ## The connection -/

/-- The far side of `client_fd` as the handler sees it. `outcomes` is what the
coming `write` calls will return (`true`: the frame was written, `false`: the
call came back with -1); once the list is used up every write goes through.
`sent` logs each frame passed to `write`, `delivered` those that were written.

A `false` is a write that returns. A write to a peer that has closed first
raises SIGPIPE, and `setup_signal_handlers` installs handlers for SIGINT and
SIGTERM only: with SIGPIPE at its default disposition the daemon process ends
inside that call and there is no return to follow. Such a write is not among
the outcomes here; a failed write that returns is one made with SIGPIPE ignored
or blocked (a disposition inherited from whoever started the daemon), or one
that fails for another reason than a closed peer. -/
structure Client where
  outcomes : List Bool
  sent : List IPCMessage
  delivered : List IPCMessage
  closed : Bool
  deriving DecidableEq, Repr

/-- Size of a frame, `sizeof(IPCMessage)`. -/
def frameSize : Int := 272

/-- The call `write(client_fd, &m, sizeof(m))`, when it returns, with its
return value: the size of the frame, or -1. -/
def write (fd : Client) (m : IPCMessage) : Client × Int :=
  match fd.outcomes with
  | [] => ({ fd with sent := fd.sent ++ [m], delivered := fd.delivered ++ [m] }, frameSize)
  | true :: os =>
    ({ fd with outcomes := os, sent := fd.sent ++ [m], delivered := fd.delivered ++ [m] },
      frameSize)
  | false :: os => ({ fd with outcomes := os, sent := fd.sent ++ [m] }, -1)

/-- The call `close(client_fd)`. -/
def close (fd : Client) : Client := { fd with closed := true }

/-! ## NumberDaemon::process_message -/

/-- The loop `for (entry : entries) if (entry.number == n) { response.timestamp
= entry.timestamp; break; }` applied to the response under construction. -/
def copyTimestamp (response : IPCMessage) (n : Int) : List NumberEntry → IPCMessage
  | [] => response
  | entry :: rest =>
    if entry.number = n then { response with timestamp := entry.timestamp }
    else copyTimestamp response n rest

/-- The loop of `PRINT_ALL` that sends one `RESPONSE_DATA` frame per entry.
`data_msg` is a local without initialiser: `uninit i` is what the `i`-th such
local holds before its three assignments. The results of `write` are dropped. -/
def sendEntries (fd : Client) (uninit : Nat → IPCMessage) (i : Nat) :
    List NumberEntry → Client
  | [] => fd
  | entry :: rest =>
    let data_msg : IPCMessage :=
      { uninit i with type := RESPONSE_DATA, number := entry.number,
                      timestamp := entry.timestamp }
    sendEntries (write fd data_msg).1 uninit (i + 1) rest

/-- The `response` local after `memset(&response, 0, sizeof(response))`. -/
def zeroed : IPCMessage := ⟨0, 0, 0, ""⟩

/-- `NumberDaemon::process_message`, on the daemon's store and the connection.
`now` is the clock reading an insertion would take, `uninit` the content of
the locals declared without initialiser (see `sendEntries`; the end marker of
`PRINT_ALL` is the local after the data frames). -/
def process_message (store : NumberStore) (fd : Client) (now : Int)
    (uninit : Nat → IPCMessage) (msg : IPCMessage) : NumberStore × Client :=
  let response := zeroed
  if msg.type = INSERT then
    if msg.number ≤ 0 then
      let response : IPCMessage :=
        { response with type := RESPONSE_ERROR, error_msg := "Error: Only positive integers are allowed" }
      (store, (write fd response).1)
    else
      let r := store.insert now msg.number
      if r.2 then
        let response := { response with type := RESPONSE_SUCCESS, number := msg.number }
        let entries := r.1.getAllSorted
        let response := copyTimestamp response msg.number entries
        (r.1, (write fd response).1)
      else
        let response : IPCMessage :=
          { response with type := RESPONSE_ERROR, error_msg := "Error: Duplicate number not allowed" }
        (r.1, (write fd response).1)
  else if msg.type = DELETE then
    if msg.number ≤ 0 then
      let response : IPCMessage :=
        { response with type := RESPONSE_ERROR, error_msg := "Error: Only positive integers are allowed" }
      (store, (write fd response).1)
    else
      let r := store.remove msg.number
      if r.2 then
        let response := { response with type := RESPONSE_SUCCESS, number := msg.number }
        (r.1, (write fd response).1)
      else
        let response : IPCMessage :=
          { response with type := RESPONSE_ERROR, error_msg := "Error: Number not found" }
        (r.1, (write fd response).1)
  else if msg.type = PRINT_ALL then
    let entries := store.getAllSorted
    let response := { response with type := RESPONSE_SUCCESS }
    let fd := (write fd response).1
    let fd := sendEntries fd uninit 0 entries
    let end_msg : IPCMessage :=
      { uninit entries.length with type := RESPONSE_SUCCESS, number := -1 }
    (store, (write fd end_msg).1)
  else if msg.type = DELETE_ALL then
    let store := store.clear
    let response := { response with type := RESPONSE_SUCCESS }
    (store, (write fd response).1)
  else if msg.type = FIND then
    if msg.number ≤ 0 then
      let response : IPCMessage :=
        { response with type := RESPONSE_ERROR, error_msg := "Error: Only positive integers are allowed" }
      (store, (write fd response).1)
    else
      let response := { response with type := RESPONSE_SUCCESS, number := msg.number }
      if store.contains msg.number then
        let entries := store.getAllSorted
        let response := copyTimestamp response msg.number entries
        (store, (write fd response).1)
      else
        let response := { response with timestamp := -1 }
        (store, (write fd response).1)
  else
    let response : IPCMessage :=
      { response with type := RESPONSE_ERROR, error_msg := "Error: Unknown message type" }
    (store, (write fd response).1)

/-! ## NumberDaemon::handle_client -/

/-- One call `read(client_fd, &msg, sizeof(msg))` as the environment answers
it: the return value, the content of `msg` afterwards, and the clock reading
current while the frame is dispatched. -/
structure ReadResult where
  bytes_read : Int
  msg : IPCMessage
  now : Int
  deriving DecidableEq, Repr

/-- `NumberDaemon::handle_client`. `reads` scripts the successive answers of
`read`; past the script the peer has shut down and `read` returns 0. -/
def handle_client (store : NumberStore) (fd : Client) (uninit : Nat → IPCMessage) :
    List ReadResult → NumberStore × Client
  | [] => (store, close fd)
  | r :: rest =>
    if r.bytes_read > 0 then
      let st := process_message store fd r.now uninit r.msg
      handle_client st.1 st.2 uninit rest
    else (store, close fd)

/-- A connection on which nothing has happened and every write will succeed. -/
def freshClient : Client := ⟨[], [], [], false⟩

/-- Request frames as a client builds them. -/
def request (type number : Int) : IPCMessage := ⟨type, number, 0, ""⟩

/-! ## Handler threads on the shared store

`NumberDaemon::run` starts one thread per accepted connection, each running
`handle_client` on the one `store`. Every method of `NumberStore` takes the
store's mutex on its first line and holds it to its return, so the calls of
different threads on the store take effect one at a time, in some order. A
thread is followed from one such call to its next: a step of a thread is its
next call on the store, or its next `write` on its own connection. -/

/-- Where a thread stands in `process_message`. `entry`: the frame `msg` has
been read and the `switch` is about to be taken. `inserted`: in `INSERT`,
`store.insert` has returned true and `store.getAllSorted` is the next call.
`found`: in `FIND`, `store.contains` has returned true and `store.getAllSorted`
is the next call. `reply`: the calls on the store are over and the listed
frames are still to be written; with no frame left the function has returned. -/
inductive Pc where
  | entry (msg : IPCMessage)
  | inserted (msg : IPCMessage)
  | found (msg : IPCMessage)
  | reply (frames : List IPCMessage)
  deriving DecidableEq, Repr

/-- A handler thread: its connection and its place in `process_message`. -/
structure Thread where
  fd : Client
  pc : Pc
  deriving DecidableEq, Repr

/-- The frames the data loop of `PRINT_ALL` builds, in order (see `sendEntries`). -/
def dataFrames (uninit : Nat → IPCMessage) (i : Nat) : List NumberEntry → List IPCMessage
  | [] => []
  | entry :: rest =>
    { uninit i with type := RESPONSE_DATA, number := entry.number,
                    timestamp := entry.timestamp } :: dataFrames uninit (i + 1) rest

/-- One step of a thread of `process_message` against the shared store: up to
and including its next call on the store, or its next `write`. `now` is the
clock reading if the step is a `store.insert`. -/
def stepThread (store : NumberStore) (now : Int) (uninit : Nat → IPCMessage)
    (t : Thread) : NumberStore × Thread :=
  match t.pc with
  | .entry msg =>
    let response := zeroed
    if msg.type = INSERT then
      if msg.number ≤ 0 then
        let response : IPCMessage :=
          { response with type := RESPONSE_ERROR, error_msg := "Error: Only positive integers are allowed" }
        (store, { t with pc := .reply [response] })
      else
        let r := store.insert now msg.number
        if r.2 then (r.1, { t with pc := .inserted msg })
        else
          let response : IPCMessage :=
            { response with type := RESPONSE_ERROR, error_msg := "Error: Duplicate number not allowed" }
          (r.1, { t with pc := .reply [response] })
    else if msg.type = DELETE then
      if msg.number ≤ 0 then
        let response : IPCMessage :=
          { response with type := RESPONSE_ERROR, error_msg := "Error: Only positive integers are allowed" }
        (store, { t with pc := .reply [response] })
      else
        let r := store.remove msg.number
        if r.2 then
          let response := { response with type := RESPONSE_SUCCESS, number := msg.number }
          (r.1, { t with pc := .reply [response] })
        else
          let response : IPCMessage :=
            { response with type := RESPONSE_ERROR, error_msg := "Error: Number not found" }
          (r.1, { t with pc := .reply [response] })
    else if msg.type = PRINT_ALL then
      let entries := store.getAllSorted
      let response := { response with type := RESPONSE_SUCCESS }
      let end_msg : IPCMessage :=
        { uninit entries.length with type := RESPONSE_SUCCESS, number := -1 }
      (store, { t with pc := .reply (response :: dataFrames uninit 0 entries ++ [end_msg]) })
    else if msg.type = DELETE_ALL then
      let store := store.clear
      let response := { response with type := RESPONSE_SUCCESS }
      (store, { t with pc := .reply [response] })
    else if msg.type = FIND then
      if msg.number ≤ 0 then
        let response : IPCMessage :=
          { response with type := RESPONSE_ERROR, error_msg := "Error: Only positive integers are allowed" }
        (store, { t with pc := .reply [response] })
      else
        let response := { response with type := RESPONSE_SUCCESS, number := msg.number }
        if store.contains msg.number then (store, { t with pc := .found msg })
        else
          let response := { response with timestamp := -1 }
          (store, { t with pc := .reply [response] })
    else
      let response : IPCMessage :=
        { response with type := RESPONSE_ERROR, error_msg := "Error: Unknown message type" }
      (store, { t with pc := .reply [response] })
  | .inserted msg =>
    let response := { zeroed with type := RESPONSE_SUCCESS, number := msg.number }
    let entries := store.getAllSorted
    let response := copyTimestamp response msg.number entries
    (store, { t with pc := .reply [response] })
  | .found msg =>
    let response := { zeroed with type := RESPONSE_SUCCESS, number := msg.number }
    let entries := store.getAllSorted
    let response := copyTimestamp response msg.number entries
    (store, { t with pc := .reply [response] })
  | .reply [] => (store, t)
  | .reply (frame :: frames) => (store, { fd := (write t.fd frame).1, pc := .reply frames })

/-- The daemon while requests are in flight: the one store and the handler
threads, in the order their connections were accepted. -/
structure System where
  store : NumberStore
  threads : List Thread
  deriving DecidableEq, Repr

/-- Thread `i` takes its next step; `uninit i` is the content of that thread's
uninitialised locals. Scheduling a thread that does not exist changes nothing. -/
def step (sys : System) (uninit : Nat → Nat → IPCMessage) (i : Nat) (now : Int) : System :=
  match sys.threads[i]? with
  | none => sys
  | some t =>
    let r := stepThread sys.store now (uninit i) t
    { store := r.1, threads := sys.threads.set i r.2 }

/-- An interleaving: which thread steps next, and what the clock reads then. -/
abbrev Schedule := List (Nat × Int)

/-- The threads run under a schedule. -/
def run (sys : System) (uninit : Nat → Nat → IPCMessage) : Schedule → System
  | [] => sys
  | s :: rest => run (step sys uninit s.1 s.2) uninit rest

/-- The thread has returned from `process_message`. -/
def returned (t : Thread) : Bool := decide (t.pc = .reply [])

/-- How often the schedule lets thread `i` step. -/
def turns (sched : Schedule) (i : Nat) : Nat := (sched.map Prod.fst).count i

/-- A thread that has read an Insert of `n` on the connection `fd`. -/
def insertThread (fd : Client) (n : Int) : Thread := ⟨fd, .entry (request INSERT n)⟩

/-- The frame of a successful Insert. -/
def insertSuccess (n t : Int) : IPCMessage := ⟨RESPONSE_SUCCESS, n, t, ""⟩

/-- The frame of a duplicate Insert. -/
def insertDuplicate : IPCMessage :=
  ⟨RESPONSE_ERROR, 0, 0, "Error: Duplicate number not allowed"⟩

/-- An upper bound on the steps a thread still has to take on the path of an
Insert: three from the entry (insert, snapshot, write), fewer further on. -/
def remaining : Pc → Nat
  | .entry _ => 3
  | .inserted _ => 2
  | .found _ => 2
  | .reply frames => frames.length

/-- A thread started as `t0` whose Insert did not or will not get in: still at
its entry, or about to write the duplicate frame, or returned after writing it. -/
def Loser (t0 th : Thread) : Prop :=
  th = t0 ∨ (th.fd = t0.fd ∧ th.pc = .reply [insertDuplicate]) ∨
  (th.fd = (write t0.fd insertDuplicate).1 ∧ th.pc = .reply [])

/-- A thread started as `t0` whose Insert of `n` got in at clock reading `ts`:
about to take its snapshot, or about to write the success frame, or returned
after writing it. -/
def Winner (n ts : Int) (t0 th : Thread) : Prop :=
  (th.fd = t0.fd ∧ ∃ msg, th.pc = .inserted msg ∧ msg.number = n) ∨
  (th.fd = t0.fd ∧ th.pc = .reply [insertSuccess n ts]) ∨
  (th.fd = (write t0.fd (insertSuccess n ts)).1 ∧ th.pc = .reply [])

/-- The states a race of Inserts of `n`, started from the store `store0` with
the threads `init`, can be in: nothing has happened, or some thread `w` has
inserted at some clock reading `ts` and every other thread is a loser. -/
def Raced (store0 : NumberStore) (init : List Thread) (n : Int) (sys : System) : Prop :=
  (sys.store = store0 ∧ sys.threads = init) ∨
  ∃ w ts, w < init.length ∧ sys.store = ⟨(store0.numbers.emplace n ts).1⟩ ∧
    sys.threads.length = init.length ∧
    ∀ i t0 th, init[i]? = some t0 → sys.threads[i]? = some th →
      (i = w → Winner n ts t0 th) ∧ (i ≠ w → Loser t0 th)

/-! ## Facts about the map -/

namespace StdMap

theorem WF_cons (e : Int × Int) (rest : StdMap) :
    WF (e :: rest) ↔ (∀ p ∈ rest, e.1 < p.1) ∧ WF rest := by
  unfold WF
  exact List.pairwise_cons

theorem hasKey_iff (m : StdMap) (k : Int) : hasKey m k = true ↔ ∃ v, (k, v) ∈ m := by
  induction m with
  | nil => simp [hasKey]
  | cons e rest ih =>
    obtain ⟨ek, ev⟩ := e
    by_cases h : ek = k
    · subst h
      simp only [hasKey, if_true, true_iff]
      exact ⟨ev, List.mem_cons_self _ _⟩
    · simp only [hasKey, if_neg h, ih, List.mem_cons, Prod.mk.injEq]
      constructor
      · rintro ⟨v, hv⟩
        exact ⟨v, Or.inr hv⟩
      · rintro ⟨v, hv | hv⟩
        · exact absurd hv.1.symm h
        · exact ⟨v, hv⟩

theorem hasKey_false_iff (m : StdMap) (k : Int) :
    hasKey m k = false ↔ ∀ v, (k, v) ∉ m := by
  rw [← Bool.not_eq_true, hasKey_iff]
  simp

theorem emplace_of_hasKey (m : StdMap) (k v : Int) (hwf : WF m) (h : hasKey m k = true) :
    emplace m k v = (m, false) := by
  induction m with
  | nil => simp [hasKey] at h
  | cons e rest ih =>
    obtain ⟨hlt, hrest⟩ := (WF_cons e rest).1 hwf
    by_cases hk : e.1 = k
    · have h1 : ¬ k < e.1 := by omega
      simp [emplace, h1, hk]
    · have hr : hasKey rest k = true := by simpa [hasKey, hk] using h
      obtain ⟨v', hv'⟩ := (hasKey_iff rest k).1 hr
      have h2 : e.1 < k := hlt _ hv'
      have h1 : ¬ k < e.1 := by omega
      have h3 : ¬ k = e.1 := by omega
      simp [emplace, h1, h3, ih hrest hr]

theorem emplace_flag (m : StdMap) (k v : Int) (h : hasKey m k = false) :
    (emplace m k v).2 = true := by
  induction m with
  | nil => simp [emplace]
  | cons e rest ih =>
    by_cases hk : e.1 = k
    · simp [hasKey, hk] at h
    · have hr : hasKey rest k = false := by simpa [hasKey, hk] using h
      have h3 : ¬ k = e.1 := fun h' => hk h'.symm
      by_cases h1 : k < e.1
      · simp [emplace, h1]
      · simp [emplace, h1, h3, ih hr]

theorem mem_emplace (m : StdMap) (k v : Int) (p : Int × Int) (h : hasKey m k = false) :
    p ∈ (emplace m k v).1 ↔ p = (k, v) ∨ p ∈ m := by
  induction m with
  | nil => simp [emplace]
  | cons e rest ih =>
    by_cases hk : e.1 = k
    · simp [hasKey, hk] at h
    · have hr : hasKey rest k = false := by simpa [hasKey, hk] using h
      have h3 : ¬ k = e.1 := fun h' => hk h'.symm
      by_cases h1 : k < e.1
      · simp [emplace, h1]
      · simp only [emplace, h1, h3, if_false, List.mem_cons, ih hr]
        tauto

theorem length_emplace (m : StdMap) (k v : Int) (h : hasKey m k = false) :
    (emplace m k v).1.length = m.length + 1 := by
  induction m with
  | nil => simp [emplace]
  | cons e rest ih =>
    by_cases hk : e.1 = k
    · simp [hasKey, hk] at h
    · have hr : hasKey rest k = false := by simpa [hasKey, hk] using h
      have h3 : ¬ k = e.1 := fun h' => hk h'.symm
      by_cases h1 : k < e.1
      · simp [emplace, h1]
      · simp [emplace, h1, h3, ih hr]

theorem mem_of_mem_emplace (m : StdMap) (k v : Int) (p : Int × Int)
    (h : p ∈ (emplace m k v).1) : p = (k, v) ∨ p ∈ m := by
  induction m with
  | nil => simpa [emplace] using h
  | cons e rest ih =>
    by_cases h1 : k < e.1
    · simpa [emplace, h1] using h
    · by_cases h3 : k = e.1
      · right
        simpa [emplace, h1, h3] using h
      · simp only [emplace, h1, h3, if_false, List.mem_cons] at h
        rcases h with h | h
        · exact Or.inr (List.mem_cons.2 (Or.inl h))
        · rcases ih h with h | h
          · exact Or.inl h
          · exact Or.inr (List.mem_cons.2 (Or.inr h))

theorem WF_emplace (m : StdMap) (k v : Int) (hwf : WF m) : WF (emplace m k v).1 := by
  induction m with
  | nil => simp [emplace, WF]
  | cons e rest ih =>
    obtain ⟨hlt, hrest⟩ := (WF_cons e rest).1 hwf
    by_cases h1 : k < e.1
    · simp only [emplace, h1, if_true]
      refine (WF_cons _ _).2 ⟨?_, hwf⟩
      intro p hp
      rcases List.mem_cons.1 hp with hp | hp
      · subst hp; exact h1
      · exact lt_trans h1 (hlt p hp)
    · by_cases h3 : k = e.1
      · simpa [emplace, h1, h3] using hwf
      · simp only [emplace, h1, h3, if_false]
        refine (WF_cons _ _).2 ⟨?_, ih hrest⟩
        intro p hp
        rcases mem_of_mem_emplace rest k v p hp with hp | hp
        · subst hp
          show e.1 < k
          omega
        · exact hlt p hp

theorem erase_of_not_hasKey (m : StdMap) (k : Int) (h : hasKey m k = false) :
    erase m k = (m, 0) := by
  induction m with
  | nil => simp [erase]
  | cons e rest ih =>
    by_cases hk : e.1 = k
    · simp [hasKey, hk] at h
    · have hr : hasKey rest k = false := by simpa [hasKey, hk] using h
      simp [erase, hk, ih hr]

theorem erase_count (m : StdMap) (k : Int) (h : hasKey m k = true) : (erase m k).2 = 1 := by
  induction m with
  | nil => simp [hasKey] at h
  | cons e rest ih =>
    by_cases hk : e.1 = k
    · simp [erase, hk]
    · have hr : hasKey rest k = true := by simpa [hasKey, hk] using h
      simp [erase, hk, ih hr]

theorem length_erase (m : StdMap) (k : Int) (h : hasKey m k = true) :
    (erase m k).1.length + 1 = m.length := by
  induction m with
  | nil => simp [hasKey] at h
  | cons e rest ih =>
    by_cases hk : e.1 = k
    · simp [erase, hk]
    · have hr : hasKey rest k = true := by simpa [hasKey, hk] using h
      simp [erase, hk, ih hr]

theorem mem_erase (m : StdMap) (k : Int) (p : Int × Int) (hwf : WF m) :
    p ∈ (erase m k).1 ↔ p ∈ m ∧ p.1 ≠ k := by
  induction m with
  | nil => simp [erase]
  | cons e rest ih =>
    obtain ⟨hlt, hrest⟩ := (WF_cons e rest).1 hwf
    by_cases hk : e.1 = k
    · simp only [erase, hk, if_true, List.mem_cons]
      constructor
      · intro hp
        have := hlt p hp
        exact ⟨Or.inr hp, by omega⟩
      · rintro ⟨hp | hp, hne⟩
        · subst hp; exact absurd hk hne
        · exact hp
    · simp only [erase, hk, if_false, List.mem_cons, ih hrest]
      constructor
      · rintro (hp | hp)
        · subst hp; exact ⟨Or.inl rfl, hk⟩
        · exact ⟨Or.inr hp.1, hp.2⟩
      · rintro ⟨hp | hp, hne⟩
        · exact Or.inl hp
        · exact Or.inr ⟨hp, hne⟩

theorem erase_sublist (m : StdMap) (k : Int) : List.Sublist (erase m k).1 m := by
  induction m with
  | nil => simp [erase]
  | cons e rest ih =>
    by_cases hk : e.1 = k
    · simp [erase, hk]
    · simpa [erase, hk] using ih

theorem WF_erase (m : StdMap) (k : Int) (hwf : WF m) : WF (erase m k).1 :=
  List.Pairwise.sublist (erase_sublist m k) hwf

theorem hasKey_erase (m : StdMap) (k : Int) (hwf : WF m) : hasKey (erase m k).1 k = false := by
  rw [hasKey_false_iff]
  intro v hv
  exact ((mem_erase m k (k, v) hwf).1 hv).2 rfl

/-- Keys of a well-formed map are pairwise distinct. -/
theorem nodup_keys (m : StdMap) (hwf : WF m) : (m.map Prod.fst).Nodup := by
  unfold WF at hwf
  rw [List.Nodup, List.pairwise_map]
  exact hwf.imp (fun h => ne_of_lt h)

/-- A well-formed map holds one timestamp per key. -/
theorem timestamp_unique (m : StdMap) (k v w : Int) (hwf : WF m)
    (hv : (k, v) ∈ m) (hw : (k, w) ∈ m) : v = w := by
  induction m with
  | nil => simp at hv
  | cons e rest ih =>
    obtain ⟨hlt, hrest⟩ := (WF_cons e rest).1 hwf
    rcases List.mem_cons.1 hv with hv | hv <;> rcases List.mem_cons.1 hw with hw | hw
    · rw [← hw] at hv
      exact (Prod.mk.inj hv).2
    · have := hlt _ hw
      rw [← hv] at this
      exact absurd this (lt_irrefl _)
    · have := hlt _ hv
      rw [← hw] at this
      exact absurd this (lt_irrefl _)
    · exact ih hrest hv hw

end StdMap

/-! ## Facts about the loops and the connection -/

theorem copyTimestamp_of_mem (response : IPCMessage) (m : StdMap) (n ts : Int)
    (hwf : m.WF) (h : (n, ts) ∈ m) :
    copyTimestamp response n (m.map (fun p => NumberEntry.mk p.1 p.2))
      = { response with timestamp := ts } := by
  induction m with
  | nil => simp at h
  | cons e rest ih =>
    obtain ⟨hlt, hrest⟩ := (StdMap.WF_cons e rest).1 hwf
    by_cases hk : e.1 = n
    · have hts : e.2 = ts :=
        StdMap.timestamp_unique (e :: rest) n e.2 ts hwf
          (by rw [← hk]; exact List.mem_cons_self _ _) h
      simp [copyTimestamp, hk, hts]
    · have hr : (n, ts) ∈ rest := by
        rcases List.mem_cons.1 h with h | h
        · rw [← h] at hk; exact absurd rfl hk
        · exact h
      simp [copyTimestamp, hk, ih hrest hr]

theorem write_sent (fd : Client) (m : IPCMessage) : (write fd m).1.sent = fd.sent ++ [m] := by
  unfold write
  split <;> rfl

/-- What the data loop passes to `write`: one frame per entry, in order, with
the entry's number and timestamp under the `RESPONSE_DATA` tag; the frames do
not depend on the state of the connection. -/
theorem sendEntries_sent (uninit : Nat → IPCMessage) (i : Nat) (entries : List NumberEntry) :
    ∃ data : List IPCMessage,
      (∀ fd : Client, (sendEntries fd uninit i entries).sent = fd.sent ++ data) ∧
      data.map (fun m => (m.type, m.number, m.timestamp))
        = entries.map (fun e => (RESPONSE_DATA, e.number, e.timestamp)) := by
  induction entries generalizing i with
  | nil => exact ⟨[], by simp [sendEntries]⟩
  | cons e rest ih =>
    obtain ⟨data, h1, h2⟩ := ih (i + 1)
    refine ⟨⟨RESPONSE_DATA, e.number, e.timestamp, (uninit i).error_msg⟩ :: data, ?_, ?_⟩
    · intro fd
      simp only [sendEntries]
      rw [h1, write_sent, List.append_assoc]
      rfl
    · simp [h2]

theorem contains_iff (store : NumberStore) (k : Int) :
    store.contains k = true ↔ ∃ ts, (k, ts) ∈ store.numbers :=
  StdMap.hasKey_iff store.numbers k

/-- The store a request leaves behind is the old one, or the result of the one
store call the request makes; an insertion is only ever made of a positive
number. -/
theorem process_message_store (store : NumberStore) (fd : Client) (now : Int)
    (uninit : Nat → IPCMessage) (msg : IPCMessage) :
    (process_message store fd now uninit msg).1 = store ∨
    (0 < msg.number ∧
      (process_message store fd now uninit msg).1 = (store.insert now msg.number).1) ∨
    (process_message store fd now uninit msg).1 = (store.remove msg.number).1 ∨
    (process_message store fd now uninit msg).1 = store.clear := by
  unfold process_message
  simp only []
  split_ifs <;> simp_all

/-- Well-formedness and positivity of the keys survive every request. -/
theorem process_message_inv (store : NumberStore) (fd : Client) (now : Int)
    (uninit : Nat → IPCMessage) (msg : IPCMessage)
    (hwf : store.numbers.WF) (hpos : ∀ p ∈ store.numbers, 0 < p.1) :
    (process_message store fd now uninit msg).1.numbers.WF ∧
    ∀ p ∈ (process_message store fd now uninit msg).1.numbers, 0 < p.1 := by
  rcases process_message_store store fd now uninit msg with h | ⟨hn, h⟩ | h | h <;> rw [h]
  · exact ⟨hwf, hpos⟩
  · refine ⟨StdMap.WF_emplace _ _ _ hwf, ?_⟩
    intro p hp
    rcases StdMap.mem_of_mem_emplace _ _ _ p hp with hp | hp
    · rw [hp]; exact hn
    · exact hpos p hp
  · refine ⟨StdMap.WF_erase _ _ hwf, ?_⟩
    intro p hp
    exact hpos p ((StdMap.erase_sublist store.numbers msg.number).subset hp)
  · exact ⟨by simp [NumberStore.clear, StdMap.WF], by simp [NumberStore.clear]⟩

theorem handle_client_inv (store : NumberStore) (fd : Client) (uninit : Nat → IPCMessage)
    (reads : List ReadResult)
    (hwf : store.numbers.WF) (hpos : ∀ p ∈ store.numbers, 0 < p.1) :
    (handle_client store fd uninit reads).1.numbers.WF ∧
    ∀ p ∈ (handle_client store fd uninit reads).1.numbers, 0 < p.1 := by
  induction reads generalizing store fd with
  | nil => exact ⟨hwf, hpos⟩
  | cons r rest ih =>
    by_cases hb : r.bytes_read > 0
    · simp only [handle_client, hb, if_true]
      obtain ⟨h1, h2⟩ := process_message_inv store fd r.now uninit r.msg hwf hpos
      exact ih _ _ h1 h2
    · simp only [handle_client, hb, if_false]
      exact ⟨hwf, hpos⟩

/-! ## Concurrent Inserts of one number -/

theorem stepThread_insert_fresh (store : NumberStore) (now : Int) (uninit : Nat → IPCMessage)
    (t : Thread) (msg : IPCMessage) (hpc : t.pc = .entry msg) (ht : msg.type = INSERT)
    (hpos : 0 < msg.number) (hout : store.contains msg.number = false) :
    stepThread store now uninit t
      = (⟨(store.numbers.emplace msg.number now).1⟩, ⟨t.fd, .inserted msg⟩) := by
  have hle : ¬ msg.number ≤ 0 := by omega
  have hflag := StdMap.emplace_flag store.numbers msg.number now hout
  obtain ⟨fd, pc⟩ := t
  simp only at hpc
  subst hpc
  simp [stepThread, ht, hle, NumberStore.insert, hflag]

theorem stepThread_insert_duplicate (store : NumberStore) (now : Int)
    (uninit : Nat → IPCMessage) (t : Thread) (msg : IPCMessage) (hpc : t.pc = .entry msg)
    (ht : msg.type = INSERT) (hpos : 0 < msg.number) (hwf : store.numbers.WF)
    (hin : store.contains msg.number = true) :
    stepThread store now uninit t = (store, ⟨t.fd, .reply [insertDuplicate]⟩) := by
  have hle : ¬ msg.number ≤ 0 := by omega
  have hem := StdMap.emplace_of_hasKey store.numbers msg.number now hwf hin
  obtain ⟨fd, pc⟩ := t
  simp only at hpc
  subst hpc
  simp [stepThread, ht, hle, NumberStore.insert, hem, zeroed, insertDuplicate]

theorem stepThread_inserted (store : NumberStore) (now : Int) (uninit : Nat → IPCMessage)
    (t : Thread) (msg : IPCMessage) (ts : Int) (hpc : t.pc = .inserted msg)
    (hwf : store.numbers.WF) (hmem : (msg.number, ts) ∈ store.numbers) :
    stepThread store now uninit t = (store, ⟨t.fd, .reply [insertSuccess msg.number ts]⟩) := by
  have hcp := copyTimestamp_of_mem ⟨RESPONSE_SUCCESS, msg.number, 0, ""⟩ store.numbers
    msg.number ts hwf hmem
  obtain ⟨fd, pc⟩ := t
  simp only at hpc
  subst hpc
  simp only [stepThread, zeroed, NumberStore.getAllSorted, hcp, insertSuccess]

theorem stepThread_reply (store : NumberStore) (now : Int) (uninit : Nat → IPCMessage)
    (t : Thread) (frame : IPCMessage) (frames : List IPCMessage)
    (hpc : t.pc = .reply (frame :: frames)) :
    stepThread store now uninit t = (store, ⟨(write t.fd frame).1, .reply frames⟩) := by
  obtain ⟨fd, pc⟩ := t
  simp only at hpc
  subst hpc
  rfl

theorem stepThread_returned (store : NumberStore) (now : Int) (uninit : Nat → IPCMessage)
    (t : Thread) (hpc : t.pc = .reply []) : stepThread store now uninit t = (store, t) := by
  obtain ⟨fd, pc⟩ := t
  simp only at hpc
  subst hpc
  rfl

/-- Once `n` is in the store at `ts`, a step of the winner leaves the store
alone and keeps it a winner. -/
theorem winner_step (store : NumberStore) (now : Int) (uninit : Nat → IPCMessage)
    (n ts : Int) (t0 th : Thread) (hwf : store.numbers.WF) (hmem : (n, ts) ∈ store.numbers)
    (h : Winner n ts t0 th) :
    (stepThread store now uninit th).1 = store ∧
    Winner n ts t0 (stepThread store now uninit th).2 := by
  rcases h with ⟨hfd, msg, hpc, hn⟩ | ⟨hfd, hpc⟩ | ⟨hfd, hpc⟩
  · subst hn
    rw [stepThread_inserted store now uninit th msg ts hpc hwf hmem]
    exact ⟨rfl, Or.inr (Or.inl ⟨hfd, rfl⟩)⟩
  · rw [stepThread_reply store now uninit th _ _ hpc]
    exact ⟨rfl, Or.inr (Or.inr ⟨by rw [hfd], rfl⟩)⟩
  · rw [stepThread_returned store now uninit th hpc]
    exact ⟨rfl, Or.inr (Or.inr ⟨hfd, hpc⟩)⟩

/-- Once `n` is in the store, a step of any other thread of the race leaves the
store alone and keeps the thread a loser. -/
theorem loser_step (store : NumberStore) (now : Int) (uninit : Nat → IPCMessage)
    (n : Int) (t0 th : Thread) (hwf : store.numbers.WF) (hpos : 0 < n)
    (hin : store.contains n = true)
    (h0 : ∃ msg, t0.pc = .entry msg ∧ msg.type = INSERT ∧ msg.number = n)
    (h : Loser t0 th) :
    (stepThread store now uninit th).1 = store ∧
    Loser t0 (stepThread store now uninit th).2 := by
  rcases h with heq | ⟨hfd, hpc⟩ | ⟨hfd, hpc⟩
  · subst heq
    obtain ⟨msg, hpc, ht, hn⟩ := h0
    subst hn
    rw [stepThread_insert_duplicate store now uninit th msg hpc ht hpos hwf hin]
    exact ⟨rfl, Or.inr (Or.inl ⟨rfl, rfl⟩)⟩
  · rw [stepThread_reply store now uninit th _ _ hpc]
    exact ⟨rfl, Or.inr (Or.inr ⟨by rw [hfd], rfl⟩)⟩
  · rw [stepThread_returned store now uninit th hpc]
    exact ⟨rfl, Or.inr (Or.inr ⟨hfd, hpc⟩)⟩

/-- A fact that holds of every thread against its start survives replacing
thread `i` by a thread of which it holds at `i`. -/
theorem pointwise_set {P : Nat → Thread → Thread → Prop} (init threads : List Thread)
    (i : Nat) (th2 : Thread)
    (hall : ∀ j t0 th, j ≠ i → init[j]? = some t0 → threads[j]? = some th → P j t0 th)
    (hnew : ∀ t0, init[i]? = some t0 → P i t0 th2) :
    ∀ j t0 th, init[j]? = some t0 → (threads.set i th2)[j]? = some th → P j t0 th := by
  intro j t0 th h0 hth
  by_cases hij : i = j
  · subst hij
    rw [List.getElem?_set] at hth
    simp only [if_true] at hth
    split at hth
    · cases hth
      exact hnew t0 h0
    · cases hth
  · rw [List.getElem?_set_ne hij] at hth
    exact hall j t0 th (fun h => hij h.symm) h0 hth

theorem raced_step (store0 : NumberStore) (init : List Thread) (n : Int)
    (uninit : Nat → Nat → IPCMessage) (sys : System) (i : Nat) (now : Int)
    (hwf : store0.numbers.WF) (hpos : 0 < n) (hout : store0.contains n = false)
    (hinit : ∀ t ∈ init, ∃ msg, t.pc = .entry msg ∧ msg.type = INSERT ∧ msg.number = n)
    (h : Raced store0 init n sys) : Raced store0 init n (step sys uninit i now) := by
  unfold step
  cases hi : sys.threads[i]? with
  | none => exact h
  | some th =>
    simp only []
    rcases h with ⟨hs, hth⟩ | ⟨w, ts, hw, hs, hlen, hall⟩
    · rw [hth] at hi
      obtain ⟨msg, hpc, ht, hn⟩ := hinit th (List.getElem?_mem hi)
      subst hn
      rw [hs, hth, stepThread_insert_fresh store0 now (uninit i) th msg hpc ht hpos hout]
      have hilt : i < init.length := by
        by_contra hge
        rw [List.getElem?_eq_none (by omega)] at hi
        cases hi
      refine Or.inr ⟨i, now, hilt, rfl, by simp, ?_⟩
      refine pointwise_set init init i _ ?_ ?_
      · intro j t0 th2 hji h0 h2
        rw [h0] at h2
        cases h2
        exact ⟨fun he => absurd he hji, fun _ => Or.inl rfl⟩
      · intro t0 h0
        rw [hi] at h0
        cases h0
        exact ⟨fun _ => Or.inl ⟨rfl, msg, rfl, rfl⟩, fun hne => absurd rfl hne⟩
    · have hwf2 : (StdMap.emplace store0.numbers n ts).1.WF :=
        StdMap.WF_emplace store0.numbers n ts hwf
      have hmem : (n, ts) ∈ (StdMap.emplace store0.numbers n ts).1 :=
        (StdMap.mem_emplace store0.numbers n ts _ hout).2 (Or.inl rfl)
      have hin : NumberStore.contains ⟨(StdMap.emplace store0.numbers n ts).1⟩ n = true :=
        (contains_iff _ n).2 ⟨ts, hmem⟩
      have hilt : i < init.length := by
        by_contra hge
        rw [List.getElem?_eq_none (by omega)] at hi
        cases hi
      obtain ⟨t0, h0⟩ : ∃ t0, init[i]? = some t0 := ⟨init[i], List.getElem?_eq_getElem hilt⟩
      have hrel := hall i t0 th h0 hi
      by_cases hiw : i = w
      · obtain ⟨e1, e2⟩ := winner_step sys.store now (uninit i) n ts t0 th
          (by rw [hs]; exact hwf2) (by rw [hs]; exact hmem) (hrel.1 hiw)
        refine Or.inr ⟨w, ts, hw, by rw [e1, hs], by simp [hlen], ?_⟩
        refine pointwise_set init sys.threads i _ (fun j t1 t2 _ => hall j t1 t2) ?_
        intro t1 h1
        rw [h0] at h1
        cases h1
        exact ⟨fun _ => e2, fun hne => absurd hiw hne⟩
      · obtain ⟨e1, e2⟩ := loser_step sys.store now (uninit i) n t0 th
          (by rw [hs]; exact hwf2) hpos (by rw [hs]; exact hin)
          (hinit t0 (List.getElem?_mem h0)) (hrel.2 hiw)
        refine Or.inr ⟨w, ts, hw, by rw [e1, hs], by simp [hlen], ?_⟩
        refine pointwise_set init sys.threads i _ (fun j t1 t2 _ => hall j t1 t2) ?_
        intro t1 h1
        rw [h0] at h1
        cases h1
        exact ⟨fun he => absurd he hiw, fun _ => e2⟩

theorem raced_run (store0 : NumberStore) (init : List Thread) (n : Int)
    (uninit : Nat → Nat → IPCMessage) (sched : Schedule) (sys : System)
    (hwf : store0.numbers.WF) (hpos : 0 < n) (hout : store0.contains n = false)
    (hinit : ∀ t ∈ init, ∃ msg, t.pc = .entry msg ∧ msg.type = INSERT ∧ msg.number = n)
    (h : Raced store0 init n sys) : Raced store0 init n (run sys uninit sched) := by
  induction sched generalizing sys with
  | nil => exact h
  | cons s rest ih =>
    exact ih _ (raced_step store0 init n uninit sys s.1 s.2 hwf hpos hout hinit h)

/-- On the path of an Insert every step of a thread that has not returned
uses up one of its remaining steps, and no step leads back to an entry. -/
theorem stepThread_remaining (store : NumberStore) (now : Int) (uninit : Nat → IPCMessage)
    (t : Thread) (h : ∀ msg, t.pc = .entry msg → msg.type = INSERT) :
    (∀ msg, (stepThread store now uninit t).2.pc = .entry msg → msg.type = INSERT) ∧
    remaining (stepThread store now uninit t).2.pc ≤ remaining t.pc - 1 := by
  obtain ⟨fd, pc⟩ := t
  cases pc with
  | entry msg =>
    have ht : msg.type = INSERT := h msg rfl
    simp only [stepThread, ht, if_true]
    split_ifs <;> simp [remaining]
  | inserted msg => simp [stepThread, remaining]
  | found msg => simp [stepThread, remaining]
  | reply frames =>
    cases frames with
    | nil => simp [stepThread, remaining]
    | cons f fs => simp [stepThread, remaining]

theorem step_length (sys : System) (uninit : Nat → Nat → IPCMessage) (i : Nat) (now : Int) :
    (step sys uninit i now).threads.length = sys.threads.length := by
  unfold step
  cases sys.threads[i]? <;> simp

theorem run_length (sys : System) (uninit : Nat → Nat → IPCMessage) (sched : Schedule) :
    (run sys uninit sched).threads.length = sys.threads.length := by
  induction sched generalizing sys with
  | nil => rfl
  | cons s rest ih => simp only [run]; rw [ih, step_length]

theorem budget_step (sys : System) (uninit : Nat → Nat → IPCMessage) (i : Nat) (now : Int)
    (c : Nat → Nat)
    (h : ∀ j th, sys.threads[j]? = some th →
      (∀ msg, th.pc = .entry msg → msg.type = INSERT) ∧ remaining th.pc ≤ c j) :
    ∀ j th, (step sys uninit i now).threads[j]? = some th →
      (∀ msg, th.pc = .entry msg → msg.type = INSERT) ∧
      remaining th.pc ≤ c j - (if i = j then 1 else 0) := by
  intro j th hth
  unfold step at hth
  cases hi : sys.threads[i]? with
  | none =>
    rw [hi] at hth
    simp only [] at hth
    have hj := h j th hth
    refine ⟨hj.1, ?_⟩
    by_cases hij : i = j
    · subst hij
      rw [hi] at hth
      cases hth
    · simpa [hij] using hj.2
  | some t =>
    rw [hi] at hth
    simp only [] at hth
    by_cases hij : i = j
    · subst hij
      rw [List.getElem?_set] at hth
      simp only [if_true] at hth
      split at hth
      · cases hth
        obtain ⟨h1, h2⟩ := h i t hi
        obtain ⟨g1, g2⟩ := stepThread_remaining sys.store now (uninit i) t h1
        refine ⟨g1, ?_⟩
        simp only [if_true]
        omega
      · cases hth
    · rw [List.getElem?_set_ne hij] at hth
      have hj := h j th hth
      exact ⟨hj.1, by simpa [hij] using hj.2⟩

theorem budget_run (sys : System) (uninit : Nat → Nat → IPCMessage) (sched : Schedule)
    (c : Nat → Nat)
    (h : ∀ j th, sys.threads[j]? = some th →
      (∀ msg, th.pc = .entry msg → msg.type = INSERT) ∧ remaining th.pc ≤ c j) :
    ∀ j th, (run sys uninit sched).threads[j]? = some th →
      (∀ msg, th.pc = .entry msg → msg.type = INSERT) ∧
      remaining th.pc ≤ c j - turns sched j := by
  induction sched generalizing sys c with
  | nil =>
    intro j th hth
    have := h j th hth
    exact ⟨this.1, by simpa [turns] using this.2⟩
  | cons s rest ih =>
    intro j th hth
    have hstep := budget_step sys uninit s.1 s.2 c h
    obtain ⟨g1, g2⟩ := ih (step sys uninit s.1 s.2) _ hstep j th hth
    refine ⟨g1, ?_⟩
    have ht : turns (s :: rest) j = turns rest j + (if s.1 = j then 1 else 0) := by
      simp [turns, List.count_cons]
    rw [ht]
    omega

theorem remaining_eq_zero (pc : Pc) (h : remaining pc = 0) : pc = .reply [] := by
  cases pc with
  | entry msg => simp [remaining] at h
  | inserted msg => simp [remaining] at h
  | found msg => simp [remaining] at h
  | reply frames =>
    cases frames with
    | nil => rfl
    | cons f fs => simp [remaining] at h

/-- Counting over a list in which exactly the thread at index `w` has the
property `f` and exactly the others have the property `g`. -/
theorem countP_one_winner (l : List Thread) (f g : Thread → Bool) (w : Nat)
    (hw : w < l.length)
    (h : ∀ i th, l[i]? = some th → (f th = true ↔ i = w) ∧ (g th = true ↔ i ≠ w)) :
    l.countP f = 1 ∧ l.countP g = l.length - 1 := by
  induction l generalizing w with
  | nil => simp at hw
  | cons a rest ih =>
    cases w with
    | zero =>
      have ha := h 0 a (by simp)
      have hfa : f a = true := ha.1.2 rfl
      have hga : g a = false := by
        cases hg : g a
        · rfl
        · exact absurd rfl (ha.2.1 hg)
      have hrest : ∀ th ∈ rest, f th = false ∧ g th = true := by
        intro th hth
        obtain ⟨i, hi⟩ := List.getElem?_of_mem hth
        have := h (i + 1) th (by simpa using hi)
        constructor
        · cases hf : f th
          · rfl
          · exact absurd (this.1.1 hf) (by omega)
        · exact this.2.2 (by omega)
      have c1 : rest.countP f = 0 :=
        List.countP_eq_zero.2 (fun th hth => by simp [(hrest th hth).1])
      have c2 : rest.countP g = rest.length :=
        List.countP_eq_length.2 (fun th hth => (hrest th hth).2)
      simp [List.countP_cons, hfa, hga, c1, c2]
    | succ v =>
      have ha := h 0 a (by simp)
      have hfa : f a = false := by
        cases hf : f a
        · rfl
        · exact absurd (ha.1.1 hf) (by omega)
      have hga : g a = true := ha.2.2 (by omega)
      have hv : v < rest.length := by simpa using hw
      obtain ⟨c1, c2⟩ := ih v hv (by
        intro i th hi
        have := h (i + 1) th (by simpa using hi)
        exact ⟨by simpa using this.1, by simpa using this.2⟩)
      simp only [List.countP_cons, hfa, hga, c1, c2, List.length_cons]
      simp
      omega

/-! ## A thread on its own is `process_message` -/

theorem sendEntries_eq_foldl (fd : Client) (uninit : Nat → IPCMessage) (i : Nat)
    (entries : List NumberEntry) :
    sendEntries fd uninit i entries
      = (dataFrames uninit i entries).foldl (fun c f => (write c f).1) fd := by
  induction entries generalizing fd i with
  | nil => rfl
  | cons e rest ih => simp only [sendEntries, dataFrames, List.foldl_cons, ih]

theorem run_append (sys : System) (uninit : Nat → Nat → IPCMessage) (a b : Schedule) :
    run sys uninit (a ++ b) = run (run sys uninit a) uninit b := by
  induction a generalizing sys with
  | nil => rfl
  | cons s rest ih =>
    show run (step sys uninit s.1 s.2) uninit (rest ++ b) = _
    exact ih _

/-- A lone thread that has its frames ready writes them in order and returns. -/
theorem run_reply (store : NumberStore) (fd : Client) (now : Int)
    (uninit : Nat → Nat → IPCMessage) (frames : List IPCMessage) (k : Nat)
    (hk : frames.length ≤ k) :
    run ⟨store, [⟨fd, .reply frames⟩]⟩ uninit (List.replicate k (0, now))
      = ⟨store, [⟨frames.foldl (fun c f => (write c f).1) fd, .reply []⟩]⟩ := by
  induction k generalizing frames fd with
  | zero =>
    have : frames = [] := List.length_eq_zero.1 (by omega)
    subst this
    rfl
  | succ k ih =>
    cases frames with
    | nil =>
      simp only [List.replicate_succ, run, step, List.getElem?_cons_zero, stepThread,
        List.set_cons_zero]
      exact ih fd [] (by simp)
    | cons f fs =>
      simp only [List.replicate_succ, run, step, List.getElem?_cons_zero, stepThread,
        List.set_cons_zero, List.foldl_cons]
      exact ih (write fd f).1 fs (by simpa using hk)

/-- A lone thread gets from its entry to its reply in one or two steps; the
store it leaves and the frames it is about to write are those of
`process_message`. -/
theorem thread_reaches_reply (store : NumberStore) (fd : Client) (now : Int)
    (uninit : Nat → Nat → IPCMessage) (msg : IPCMessage) :
    ∃ (m : Nat) (frames : List IPCMessage),
      run ⟨store, [⟨fd, .entry msg⟩]⟩ uninit (List.replicate m (0, now))
        = ⟨(process_message store fd now (uninit 0) msg).1, [⟨fd, .reply frames⟩]⟩ ∧
      (process_message store fd now (uninit 0) msg).2
        = frames.foldl (fun c f => (write c f).1) fd := by
  by_cases hp : msg.type = PRINT_ALL
  · have hne : ¬ PRINT_ALL = INSERT ∧ ¬ PRINT_ALL = DELETE := by decide
    refine ⟨1, ⟨RESPONSE_SUCCESS, 0, 0, ""⟩ :: dataFrames (uninit 0) 0 store.getAllSorted ++
      [⟨RESPONSE_SUCCESS, -1, ((uninit 0) store.getAllSorted.length).timestamp,
        ((uninit 0) store.getAllSorted.length).error_msg⟩], ?_, ?_⟩
    · simp only [List.replicate_succ, List.replicate_zero, run, step, List.getElem?_cons_zero,
        stepThread, List.set_cons_zero, process_message, hp, hne.1, hne.2, if_true, if_false,
        zeroed]
    · simp only [process_message, hp, hne.1, hne.2, if_true, if_false, List.foldl_cons,
        List.foldl_append, List.foldl_nil, sendEntries_eq_foldl, zeroed]
  · by_cases hi : msg.type = INSERT ∧ ¬ msg.number ≤ 0 ∧ (store.insert now msg.number).2 = true
    · obtain ⟨h1, h2, h3⟩ := hi
      refine ⟨2, [copyTimestamp ⟨RESPONSE_SUCCESS, msg.number, 0, ""⟩ msg.number
        (store.insert now msg.number).1.getAllSorted], ?_, ?_⟩
      · simp only [List.replicate_succ, List.replicate_zero, run, step, List.getElem?_cons_zero,
          stepThread, List.set_cons_zero, process_message, h1, h2, h3, if_true, if_false, zeroed]
      · simp only [process_message, h1, h2, h3, if_true, if_false, List.foldl_cons,
          List.foldl_nil, zeroed]
    · by_cases hf : msg.type = FIND ∧ ¬ msg.number ≤ 0 ∧ store.contains msg.number = true
      · obtain ⟨h1, h2, h3⟩ := hf
        have hne : ¬ FIND = INSERT ∧ ¬ FIND = DELETE ∧ ¬ FIND = PRINT_ALL ∧
            ¬ FIND = DELETE_ALL := by decide
        refine ⟨2, [copyTimestamp ⟨RESPONSE_SUCCESS, msg.number, 0, ""⟩ msg.number
          store.getAllSorted], ?_, ?_⟩
        · simp only [List.replicate_succ, List.replicate_zero, run, step,
            List.getElem?_cons_zero, stepThread, List.set_cons_zero, process_message, h1, h2, h3,
            hne.1, hne.2.1, hne.2.2.1, hne.2.2.2, if_true, if_false, zeroed]
        · simp only [process_message, h1, h2, h3, hne.1, hne.2.1, hne.2.2.1, hne.2.2.2,
            if_true, if_false, List.foldl_cons, List.foldl_nil, zeroed]
      · have hd : ¬ DELETE = INSERT ∧ ¬ DELETE = PRINT_ALL ∧ ¬ DELETE_ALL = INSERT ∧
            ¬ DELETE_ALL = DELETE ∧ ¬ DELETE_ALL = PRINT_ALL ∧ ¬ FIND = INSERT ∧
            ¬ FIND = DELETE ∧ ¬ FIND = PRINT_ALL ∧ ¬ FIND = DELETE_ALL ∧
            ¬ INSERT = PRINT_ALL := by decide
        simp only [process_message, hp, if_false]
        split_ifs
        all_goals first
          | exact absurd ⟨by assumption, by assumption, by assumption⟩ hi
          | exact absurd ⟨by assumption, by assumption, by assumption⟩ hf
          | (refine ⟨1, [_], ?_, rfl⟩
             simp [run, step, stepThread, zeroed, hd, *])

/-- With enough turns a lone thread ends exactly where `process_message` ends:
the same store, the same connection state, returned. -/
theorem thread_alone (store : NumberStore) (fd : Client) (now : Int)
    (uninit : Nat → Nat → IPCMessage) (msg : IPCMessage) :
    ∃ k, ∀ j,
      run ⟨store, [⟨fd, .entry msg⟩]⟩ uninit (List.replicate (k + j) (0, now))
        = ⟨(process_message store fd now (uninit 0) msg).1,
           [⟨(process_message store fd now (uninit 0) msg).2, .reply []⟩]⟩ := by
  obtain ⟨m, frames, h1, h2⟩ := thread_reaches_reply store fd now uninit msg
  refine ⟨m + frames.length, ?_⟩
  intro j
  have : m + frames.length + j = m + (frames.length + j) := by omega
  rw [this, List.replicate_add, run_append, h1, h2]
  exact run_reply _ fd now uninit frames _ (by omega)

/-! ## Requests against the store -/

/-- C1: an Insert of a positive number that the store already holds is answered
by one Error frame carrying the duplicate message, whatever the clock reads
now, and the store is left as it was: the same entries, so the same keys and
the number still mapped to the timestamp of its first insertion. -/
theorem insert_duplicate_rejected (store : NumberStore) (fd : Client) (now : Int)
    (uninit : Nat → IPCMessage) (msg : IPCMessage)
    (hwf : store.numbers.WF) (ht : msg.type = INSERT) (hpos : 0 < msg.number)
    (hin : store.contains msg.number = true) :
    process_message store fd now uninit msg
      = (store, (write fd ⟨RESPONSE_ERROR, 0, 0, "Error: Duplicate number not allowed"⟩).1) ∧
    (process_message store fd now uninit msg).2.sent
      = fd.sent ++ [⟨RESPONSE_ERROR, 0, 0, "Error: Duplicate number not allowed"⟩] ∧
    (∀ k ts, (k, ts) ∈ (process_message store fd now uninit msg).1.numbers
      ↔ (k, ts) ∈ store.numbers) := by
  have hle : ¬ msg.number ≤ 0 := by omega
  have hem := StdMap.emplace_of_hasKey store.numbers msg.number now hwf hin
  have key : process_message store fd now uninit msg
      = (store, (write fd ⟨RESPONSE_ERROR, 0, 0, "Error: Duplicate number not allowed"⟩).1) := by
    simp [process_message, ht, hle, NumberStore.insert, hem, zeroed]
  rw [key]
  exact ⟨rfl, write_sent _ _, fun _ _ => Iff.rfl⟩

/-- C1 on a store holding 3, re-inserted at a later clock reading. -/
theorem insert_duplicate_rejected_witness :
    StdMap.WF [(3, 100)] ∧ (0 : Int) < 3 ∧
    NumberStore.contains ⟨[(3, 100)]⟩ 3 = true ∧
    process_message ⟨[(3, 100)]⟩ freshClient 250 (fun _ => zeroed) (request INSERT 3)
      = (⟨[(3, 100)]⟩,
         (write freshClient ⟨RESPONSE_ERROR, 0, 0, "Error: Duplicate number not allowed"⟩).1) :=
  ⟨by decide, by decide, rfl,
   (insert_duplicate_rejected ⟨[(3, 100)]⟩ freshClient 250 (fun _ => zeroed)
      (request INSERT 3) (by decide) rfl (by decide) rfl).1⟩

/-- C2: an Insert, Delete or Find whose number is zero or negative is answered
by one Error frame carrying the validation message, and the store is exactly
the store from before the request. -/
theorem nonpositive_rejected (store : NumberStore) (fd : Client) (now : Int)
    (uninit : Nat → IPCMessage) (msg : IPCMessage)
    (ht : msg.type = INSERT ∨ msg.type = DELETE ∨ msg.type = FIND)
    (hle : msg.number ≤ 0) :
    process_message store fd now uninit msg
      = (store,
         (write fd ⟨RESPONSE_ERROR, 0, 0, "Error: Only positive integers are allowed"⟩).1) ∧
    (process_message store fd now uninit msg).2.sent
      = fd.sent ++ [⟨RESPONSE_ERROR, 0, 0, "Error: Only positive integers are allowed"⟩] := by
  have key : process_message store fd now uninit msg
      = (store,
         (write fd ⟨RESPONSE_ERROR, 0, 0, "Error: Only positive integers are allowed"⟩).1) := by
    rcases ht with ht | ht | ht <;>
      simp [process_message, ht, hle, zeroed, INSERT, DELETE, PRINT_ALL, DELETE_ALL, FIND]
  rw [key]
  exact ⟨rfl, write_sent _ _⟩

/-- C2 on a Delete of -4. -/
theorem nonpositive_rejected_witness :
    (-4 : Int) ≤ 0 ∧
    process_message ⟨[(3, 100)]⟩ freshClient 250 (fun _ => zeroed) (request DELETE (-4))
      = (⟨[(3, 100)]⟩,
         (write freshClient
           ⟨RESPONSE_ERROR, 0, 0, "Error: Only positive integers are allowed"⟩).1) :=
  ⟨by decide,
   (nonpositive_rejected ⟨[(3, 100)]⟩ freshClient 250 (fun _ => zeroed)
      (request DELETE (-4)) (Or.inr (Or.inl rfl)) (by decide)).1⟩

/-- C3: a Find of a positive number is always answered by one Success frame
whose number is the number asked for; its timestamp is the timestamp the map
holds for the number when the number is a key of the map, and -1 when the
number is no key of the map; the store is unchanged. The presence test of the
code, `contains`, is true exactly of the keys of the map. -/
theorem find_reports (store : NumberStore) (fd : Client) (now : Int)
    (uninit : Nat → IPCMessage) (msg : IPCMessage)
    (hwf : store.numbers.WF) (ht : msg.type = FIND) (hpos : 0 < msg.number) :
    (process_message store fd now uninit msg).1 = store ∧
    (∀ ts, (msg.number, ts) ∈ store.numbers →
      process_message store fd now uninit msg
        = (store, (write fd ⟨RESPONSE_SUCCESS, msg.number, ts, ""⟩).1) ∧
      (process_message store fd now uninit msg).2.sent
        = fd.sent ++ [⟨RESPONSE_SUCCESS, msg.number, ts, ""⟩]) ∧
    (msg.number ∉ store.numbers.map Prod.fst →
      process_message store fd now uninit msg
        = (store, (write fd ⟨RESPONSE_SUCCESS, msg.number, -1, ""⟩).1) ∧
      (process_message store fd now uninit msg).2.sent
        = fd.sent ++ [⟨RESPONSE_SUCCESS, msg.number, -1, ""⟩]) ∧
    (∀ k : Int, store.contains k = true ↔ k ∈ store.numbers.map Prod.fst) := by
  have hle : ¬ msg.number ≤ 0 := by omega
  have hkeys : ∀ k : Int, store.contains k = true ↔ k ∈ store.numbers.map Prod.fst := by
    intro k
    rw [contains_iff]
    constructor
    · rintro ⟨ts, hts⟩
      exact List.mem_map.2 ⟨(k, ts), hts, rfl⟩
    · intro hk
      obtain ⟨p, hp, hpk⟩ := List.mem_map.1 hk
      exact ⟨p.2, by rw [← hpk]; exact hp⟩
  have present : ∀ ts, (msg.number, ts) ∈ store.numbers →
      process_message store fd now uninit msg
        = (store, (write fd ⟨RESPONSE_SUCCESS, msg.number, ts, ""⟩).1) := by
    intro ts hts
    have hc : store.contains msg.number = true := (contains_iff store msg.number).2 ⟨ts, hts⟩
    have hcp := copyTimestamp_of_mem ⟨RESPONSE_SUCCESS, msg.number, 0, ""⟩ store.numbers
      msg.number ts hwf hts
    simp only [process_message, ht, hle, hc, zeroed, NumberStore.getAllSorted, hcp, if_true,
      if_false]
    simp [INSERT, DELETE, PRINT_ALL, DELETE_ALL, FIND]
  have absent : msg.number ∉ store.numbers.map Prod.fst →
      process_message store fd now uninit msg
        = (store, (write fd ⟨RESPONSE_SUCCESS, msg.number, -1, ""⟩).1) := by
    intro hk
    have hc : store.contains msg.number = false := by
      cases h : store.contains msg.number
      · rfl
      · exact absurd ((hkeys msg.number).1 h) hk
    simp [process_message, ht, hle, hc, zeroed, INSERT, DELETE, PRINT_ALL, DELETE_ALL, FIND]
  refine ⟨?_, ?_, ?_, hkeys⟩
  · by_cases hk : msg.number ∈ store.numbers.map Prod.fst
    · obtain ⟨ts, hts⟩ := (contains_iff store msg.number).1 ((hkeys msg.number).2 hk)
      rw [present ts hts]
    · rw [absent hk]
  · intro ts hts
    rw [present ts hts]
    exact ⟨rfl, write_sent _ _⟩
  · intro hk
    rw [absent hk]
    exact ⟨rfl, write_sent _ _⟩

/-- C3 on a store holding 3 and 8: a Find of 8, which is there, and a Find of
5, which is not. -/
theorem find_reports_witness :
    StdMap.WF [(3, 100), (8, 120)] ∧ (0 : Int) < 8 ∧ (0 : Int) < 5 ∧
    (8, 120) ∈ [((3 : Int), (100 : Int)), (8, 120)] ∧
    (5 : Int) ∉ [((3 : Int), (100 : Int)), (8, 120)].map Prod.fst ∧
    (process_message ⟨[(3, 100), (8, 120)]⟩ freshClient 250 (fun _ => zeroed)
      (request FIND 8)).2.sent = [⟨RESPONSE_SUCCESS, 8, 120, ""⟩] ∧
    (process_message ⟨[(3, 100), (8, 120)]⟩ freshClient 250 (fun _ => zeroed)
      (request FIND 5)).2.sent = [⟨RESPONSE_SUCCESS, 5, -1, ""⟩] :=
  ⟨by decide, by decide, by decide, by decide, by decide,
   ((find_reports ⟨[(3, 100), (8, 120)]⟩ freshClient 250 (fun _ => zeroed)
      (request FIND 8) (by decide) rfl (by decide)).2.1 120 (by decide)).2,
   ((find_reports ⟨[(3, 100), (8, 120)]⟩ freshClient 250 (fun _ => zeroed)
      (request FIND 5) (by decide) rfl (by decide)).2.2.1 (by decide)).2⟩

/-- C4: a ListAll request leaves the store alone and passes to the connection,
in this order: one Success acknowledgement, one DataItem frame per stored entry
with that entry's number and timestamp, in the store's order, which is strictly
ascending in the number (so no entry is missing or repeated), and one closing
Success frame whose number is -1. After inserting 5, 1, 3 into the empty store
(at any three clock readings) the DataItem frames carry 1, 3, 5. -/
theorem print_all_frames (store : NumberStore) (fd : Client) (now : Int)
    (uninit : Nat → IPCMessage) (msg : IPCMessage)
    (hwf : store.numbers.WF) (ht : msg.type = PRINT_ALL) :
    (process_message store fd now uninit msg).1 = store ∧
    (∃ (data : List IPCMessage) (end_msg : IPCMessage),
      (process_message store fd now uninit msg).2.sent
        = fd.sent ++ ([⟨RESPONSE_SUCCESS, 0, 0, ""⟩] ++ data ++ [end_msg]) ∧
      data.map (fun m => (m.type, m.number, m.timestamp))
        = store.numbers.map (fun p => (RESPONSE_DATA, p.1, p.2)) ∧
      data.Pairwise (fun a b => a.number < b.number) ∧
      end_msg.type = RESPONSE_SUCCESS ∧ end_msg.number = -1) ∧
    (∀ t1 t2 t3 : Int,
      (process_message
        (process_message
          (process_message
            (process_message NumberStore.empty fd t1 uninit (request INSERT 5)).1
            fd t2 uninit (request INSERT 1)).1
          fd t3 uninit (request INSERT 3)).1
        fd now uninit msg).2.sent
      = fd.sent ++
        [⟨RESPONSE_SUCCESS, 0, 0, ""⟩,
         ⟨RESPONSE_DATA, 1, t2, (uninit 0).error_msg⟩,
         ⟨RESPONSE_DATA, 3, t3, (uninit 1).error_msg⟩,
         ⟨RESPONSE_DATA, 5, t1, (uninit 2).error_msg⟩,
         ⟨RESPONSE_SUCCESS, -1, (uninit 3).timestamp, (uninit 3).error_msg⟩]) := by
  have hne : ¬ PRINT_ALL = INSERT ∧ ¬ PRINT_ALL = DELETE := by decide
  refine ⟨?_, ?_, ?_⟩
  · simp [process_message, ht, hne.1, hne.2]
  · obtain ⟨data, h1, h2⟩ := sendEntries_sent uninit 0 store.getAllSorted
    have h2' : data.map (fun m => (m.type, m.number, m.timestamp))
        = store.numbers.map (fun p => (RESPONSE_DATA, p.1, p.2)) := by
      rw [h2]
      simp [NumberStore.getAllSorted]
    refine ⟨data, ⟨RESPONSE_SUCCESS, -1, (uninit store.getAllSorted.length).timestamp,
      (uninit store.getAllSorted.length).error_msg⟩, ?_, h2', ?_, rfl, rfl⟩
    · simp only [process_message, ht, hne.1, hne.2, if_true, if_false, zeroed]
      rw [write_sent, h1, write_sent]
      simp
    · have h3 : data.map (fun m => m.number) = store.numbers.map Prod.fst := by
        have := congrArg (List.map (fun q : Int × Int × Int => q.2.1)) h2'
        simpa [List.map_map, Function.comp_def] using this
      have h4 : (store.numbers.map Prod.fst).Pairwise (fun a b => a < b) := by
        rw [List.pairwise_map]
        exact hwf
      rw [← h3, List.pairwise_map] at h4
      exact h4
  · intro t1 t2 t3
    have hs : (process_message
          (process_message
            (process_message NumberStore.empty fd t1 uninit (request INSERT 5)).1
            fd t2 uninit (request INSERT 1)).1
          fd t3 uninit (request INSERT 3)).1 = ⟨[(1, t2), (3, t3), (5, t1)]⟩ := by
      simp [process_message, request, NumberStore.empty, NumberStore.insert, StdMap.emplace]
    rw [hs]
    simp [process_message, ht, hne.1, hne.2, zeroed, NumberStore.getAllSorted, sendEntries,
      write_sent]

/-- C4 on a store holding 3 and 8. -/
theorem print_all_frames_witness :
    StdMap.WF [(3, 100), (8, 120)] ∧
    (process_message ⟨[(3, 100), (8, 120)]⟩ freshClient 250 (fun _ => zeroed)
      (request PRINT_ALL 0)).1 = ⟨[(3, 100), (8, 120)]⟩ :=
  ⟨by decide,
   (print_all_frames ⟨[(3, 100), (8, 120)]⟩ freshClient 250 (fun _ => zeroed)
      (request PRINT_ALL 0) (by decide) rfl).1⟩

/-- C5: an Insert of a positive number that the store does not hold, made while
the clock reads `now`, is answered by one Success frame with that number and
timestamp `now`; the new store holds exactly the old entries, unchanged, and
the one new entry number -> `now`, so its size has grown by one. -/
theorem insert_fresh_added (store : NumberStore) (fd : Client) (now : Int)
    (uninit : Nat → IPCMessage) (msg : IPCMessage)
    (hwf : store.numbers.WF) (ht : msg.type = INSERT) (hpos : 0 < msg.number)
    (hout : store.contains msg.number = false) :
    (process_message store fd now uninit msg).2
      = (write fd ⟨RESPONSE_SUCCESS, msg.number, now, ""⟩).1 ∧
    (process_message store fd now uninit msg).2.sent
      = fd.sent ++ [⟨RESPONSE_SUCCESS, msg.number, now, ""⟩] ∧
    (∀ k ts, (k, ts) ∈ (process_message store fd now uninit msg).1.numbers
      ↔ (k, ts) = (msg.number, now) ∨ (k, ts) ∈ store.numbers) ∧
    (process_message store fd now uninit msg).1.size = store.size + 1 ∧
    (process_message store fd now uninit msg).1.numbers.WF := by
  have hle : ¬ msg.number ≤ 0 := by omega
  have hflag := StdMap.emplace_flag store.numbers msg.number now hout
  have hwf2 := StdMap.WF_emplace store.numbers msg.number now hwf
  have hmem : (msg.number, now) ∈ (store.numbers.emplace msg.number now).1 :=
    (StdMap.mem_emplace store.numbers msg.number now _ hout).2 (Or.inl rfl)
  have hcp := copyTimestamp_of_mem ⟨RESPONSE_SUCCESS, msg.number, 0, ""⟩
    (store.numbers.emplace msg.number now).1 msg.number now hwf2 hmem
  have key : process_message store fd now uninit msg
      = (⟨(store.numbers.emplace msg.number now).1⟩,
         (write fd ⟨RESPONSE_SUCCESS, msg.number, now, ""⟩).1) := by
    simp only [process_message, ht, hle, NumberStore.insert, hflag, zeroed,
      NumberStore.getAllSorted, hcp, if_true, if_false]
  rw [key]
  refine ⟨rfl, write_sent _ _, ?_, ?_, hwf2⟩
  · intro k ts
    exact StdMap.mem_emplace store.numbers msg.number now (k, ts) hout
  · exact StdMap.length_emplace store.numbers msg.number now hout

/-- C5 on an Insert of 5 into a store holding 3 and 8. -/
theorem insert_fresh_added_witness :
    StdMap.WF [(3, 100), (8, 120)] ∧ (0 : Int) < 5 ∧
    NumberStore.contains ⟨[(3, 100), (8, 120)]⟩ 5 = false ∧
    (process_message ⟨[(3, 100), (8, 120)]⟩ freshClient 250 (fun _ => zeroed)
      (request INSERT 5)).2 = (write freshClient ⟨RESPONSE_SUCCESS, 5, 250, ""⟩).1 :=
  ⟨by decide, by decide, rfl,
   (insert_fresh_added ⟨[(3, 100), (8, 120)]⟩ freshClient 250 (fun _ => zeroed)
      (request INSERT 5) (by decide) rfl (by decide) rfl).1⟩

/-- C6: two Deletes in a row of a positive number that the store holds: the
first is answered by a Success frame with that number and leaves the store
with exactly that number's entry removed (the other entries and timestamps as
they were, one entry fewer); the second is answered by the not-found Error
frame and leaves that store unchanged. -/
theorem delete_twice (store : NumberStore) (fd : Client) (now now2 : Int)
    (uninit uninit2 : Nat → IPCMessage) (msg : IPCMessage)
    (hwf : store.numbers.WF) (ht : msg.type = DELETE) (hpos : 0 < msg.number)
    (hin : store.contains msg.number = true) :
    (process_message store fd now uninit msg).2
      = (write fd ⟨RESPONSE_SUCCESS, msg.number, 0, ""⟩).1 ∧
    (∀ k ts, (k, ts) ∈ (process_message store fd now uninit msg).1.numbers
      ↔ (k, ts) ∈ store.numbers ∧ k ≠ msg.number) ∧
    (process_message store fd now uninit msg).1.size + 1 = store.size ∧
    process_message (process_message store fd now uninit msg).1
        (process_message store fd now uninit msg).2 now2 uninit2 msg
      = ((process_message store fd now uninit msg).1,
         (write (process_message store fd now uninit msg).2
           ⟨RESPONSE_ERROR, 0, 0, "Error: Number not found"⟩).1) ∧
    (process_message (process_message store fd now uninit msg).1
        (process_message store fd now uninit msg).2 now2 uninit2 msg).2.sent
      = fd.sent ++ [⟨RESPONSE_SUCCESS, msg.number, 0, ""⟩,
                    ⟨RESPONSE_ERROR, 0, 0, "Error: Number not found"⟩] := by
  have hle : ¬ msg.number ≤ 0 := by omega
  have hne : ¬ DELETE = INSERT := by decide
  have hcnt := StdMap.erase_count store.numbers msg.number hin
  have key : process_message store fd now uninit msg
      = (⟨(store.numbers.erase msg.number).1⟩,
         (write fd ⟨RESPONSE_SUCCESS, msg.number, 0, ""⟩).1) := by
    simp [process_message, ht, hne, hle, NumberStore.remove, hcnt, zeroed]
  have hgone := StdMap.hasKey_erase store.numbers msg.number hwf
  have her := StdMap.erase_of_not_hasKey (store.numbers.erase msg.number).1 msg.number hgone
  have key2 : ∀ fd2 : Client,
      process_message ⟨(store.numbers.erase msg.number).1⟩ fd2 now2 uninit2 msg
        = (⟨(store.numbers.erase msg.number).1⟩,
           (write fd2 ⟨RESPONSE_ERROR, 0, 0, "Error: Number not found"⟩).1) := by
    intro fd2
    simp [process_message, ht, hne, hle, NumberStore.remove, her, zeroed]
  rw [key]
  refine ⟨rfl, ?_, ?_, key2 _, ?_⟩
  · intro k ts
    exact StdMap.mem_erase store.numbers msg.number (k, ts) hwf
  · exact StdMap.length_erase store.numbers msg.number hin
  · rw [key2, write_sent, write_sent]
    simp

/-- C6 on a Delete of 3 from a store holding 3 and 8. -/
theorem delete_twice_witness :
    StdMap.WF [(3, 100), (8, 120)] ∧ (0 : Int) < 3 ∧
    NumberStore.contains ⟨[(3, 100), (8, 120)]⟩ 3 = true ∧
    (process_message ⟨[(3, 100), (8, 120)]⟩ freshClient 250 (fun _ => zeroed)
      (request DELETE 3)).2 = (write freshClient ⟨RESPONSE_SUCCESS, 3, 0, ""⟩).1 :=
  ⟨by decide, by decide, rfl,
   (delete_twice ⟨[(3, 100), (8, 120)]⟩ freshClient 250 260 (fun _ => zeroed)
      (fun _ => zeroed) (request DELETE 3) (by decide) rfl (by decide) rfl).1⟩

/-- C7: on a daemon that starts with the empty store, whatever frames a
connection delivers (any discriminant, any number, zero and negatives
included, at any clock readings and with any write results), every key the
store ends up holding is greater than zero and no key occurs twice. -/
theorem keys_positive_distinct (fd : Client) (uninit : Nat → IPCMessage)
    (reads : List ReadResult) :
    (∀ p ∈ (handle_client NumberStore.empty fd uninit reads).1.numbers, 0 < p.1) ∧
    ((handle_client NumberStore.empty fd uninit reads).1.numbers.map Prod.fst).Nodup := by
  obtain ⟨hwf, hpos⟩ := handle_client_inv NumberStore.empty fd uninit reads
    (by simp [NumberStore.empty, StdMap.WF]) (by simp [NumberStore.empty])
  exact ⟨hpos, StdMap.nodup_keys _ hwf⟩

/-- C8: a DeleteAll request is answered by one Success frame; afterwards the
size of the store is 0 and, for every number k > 0, contains(k) is false and a
Find of k is answered by Success with timestamp -1. -/
theorem delete_all_empties (store : NumberStore) (fd : Client) (now : Int)
    (uninit : Nat → IPCMessage) (msg : IPCMessage) (ht : msg.type = DELETE_ALL) :
    (process_message store fd now uninit msg).2
      = (write fd ⟨RESPONSE_SUCCESS, 0, 0, ""⟩).1 ∧
    (process_message store fd now uninit msg).2.sent
      = fd.sent ++ [⟨RESPONSE_SUCCESS, 0, 0, ""⟩] ∧
    (process_message store fd now uninit msg).1.size = 0 ∧
    (∀ k : Int, 0 < k →
      (process_message store fd now uninit msg).1.contains k = false ∧
      ∀ (fd2 : Client) (now2 : Int) (uninit2 : Nat → IPCMessage) (q : IPCMessage),
        q.type = FIND → q.number = k →
        process_message (process_message store fd now uninit msg).1 fd2 now2 uninit2 q
          = ((process_message store fd now uninit msg).1,
             (write fd2 ⟨RESPONSE_SUCCESS, k, -1, ""⟩).1)) := by
  have hne : ¬ DELETE_ALL = INSERT ∧ ¬ DELETE_ALL = DELETE ∧ ¬ DELETE_ALL = PRINT_ALL := by
    decide
  have key : process_message store fd now uninit msg
      = (⟨[]⟩, (write fd ⟨RESPONSE_SUCCESS, 0, 0, ""⟩).1) := by
    simp [process_message, ht, hne.1, hne.2.1, hne.2.2, NumberStore.clear, zeroed]
  rw [key]
  refine ⟨rfl, write_sent _ _, rfl, ?_⟩
  intro k hk
  refine ⟨rfl, ?_⟩
  intro fd2 now2 uninit2 q hq hqk
  subst hqk
  have hle : ¬ q.number ≤ 0 := by omega
  have hf : ¬ FIND = INSERT ∧ ¬ FIND = DELETE ∧ ¬ FIND = PRINT_ALL ∧ ¬ FIND = DELETE_ALL := by
    decide
  simp [process_message, hq, hf.1, hf.2.1, hf.2.2.1, hf.2.2.2, hle, NumberStore.contains,
    StdMap.hasKey, zeroed]

/-- C8 on a store holding 3 and 8. -/
theorem delete_all_empties_witness :
    (process_message ⟨[(3, 100), (8, 120)]⟩ freshClient 250 (fun _ => zeroed)
      (request DELETE_ALL 0)).1.size = 0 :=
  (delete_all_empties ⟨[(3, 100), (8, 120)]⟩ freshClient 250 (fun _ => zeroed)
    (request DELETE_ALL 0) rfl).2.2.1

/-- C9, the point where the code departs from the sentence: a frame tagged
`RESPONSE_DATA` is answered by one Error frame whose text is
"Error: Unknown message type", which is not the text "unknown message type". -/
theorem unknown_type_text_differs :
    (process_message NumberStore.empty freshClient 0 (fun _ => zeroed)
      (request RESPONSE_DATA 1)).2.sent
      = [⟨RESPONSE_ERROR, 0, 0, "Error: Unknown message type"⟩] ∧
    ¬ ((process_message NumberStore.empty freshClient 0 (fun _ => zeroed)
      (request RESPONSE_DATA 1)).2.sent.map (fun m => m.error_msg)
      = ["unknown message type"]) := by
  decide

/-- C9, amended: a frame whose discriminant is none of Insert, Delete, Find,
ListAll, DeleteAll (the response discriminants included) is answered by exactly
one frame, of kind Error, with the text "Error: Unknown message type"; the
store is unchanged and the handler goes on with the next read. -/
theorem unknown_type_rejected (store : NumberStore) (fd : Client) (now : Int)
    (uninit : Nat → IPCMessage) (msg : IPCMessage) (bytes_read : Int)
    (rest : List ReadResult)
    (h0 : msg.type ≠ INSERT) (h1 : msg.type ≠ DELETE) (h2 : msg.type ≠ PRINT_ALL)
    (h3 : msg.type ≠ DELETE_ALL) (h4 : msg.type ≠ FIND) (hb : 0 < bytes_read) :
    process_message store fd now uninit msg
      = (store, (write fd ⟨RESPONSE_ERROR, 0, 0, "Error: Unknown message type"⟩).1) ∧
    (process_message store fd now uninit msg).2.sent
      = fd.sent ++ [⟨RESPONSE_ERROR, 0, 0, "Error: Unknown message type"⟩] ∧
    handle_client store fd uninit (⟨bytes_read, msg, now⟩ :: rest)
      = handle_client store
          (write fd ⟨RESPONSE_ERROR, 0, 0, "Error: Unknown message type"⟩).1 uninit rest := by
  have key : process_message store fd now uninit msg
      = (store, (write fd ⟨RESPONSE_ERROR, 0, 0, "Error: Unknown message type"⟩).1) := by
    simp [process_message, h0, h1, h2, h3, h4, zeroed]
  refine ⟨key, ?_, ?_⟩
  · rw [key]
    exact write_sent _ _
  · have hb2 : bytes_read > 0 := hb
    simp only [handle_client, hb2, if_true, key]

/-- C9 on a frame tagged with the Success discriminant. -/
theorem unknown_type_rejected_witness :
    (0 : Int) < 272 ∧
    process_message ⟨[(3, 100)]⟩ freshClient 250 (fun _ => zeroed) (request RESPONSE_SUCCESS 3)
      = (⟨[(3, 100)]⟩,
         (write freshClient ⟨RESPONSE_ERROR, 0, 0, "Error: Unknown message type"⟩).1) :=
  ⟨by decide,
   (unknown_type_rejected ⟨[(3, 100)]⟩ freshClient 250 (fun _ => zeroed)
      (request RESPONSE_SUCCESS 3) 272 [] (by decide) (by decide) (by decide) (by decide)
      (by decide) (by decide)).1⟩

/-- C10: a client sends Insert 5, ListAll and Insert 7 in one go and closes
without reading, so that every write on the connection comes back with -1. The
handler does not stop at the first failed write: it passes all five frames to
`write`, none of which is delivered, and it reads and dispatches the requests
that follow, so the Insert of 7 is in the store; the connection is closed only
when the reads have ended. -/
theorem write_failure_not_fatal :
    handle_client NumberStore.empty ⟨[false, false, false, false, false], [], [], false⟩
      (fun _ => zeroed)
      [⟨272, request INSERT 5, 100⟩, ⟨272, request PRINT_ALL 0, 101⟩,
       ⟨272, request INSERT 7, 102⟩, ⟨0, request INSERT 7, 103⟩]
    = (⟨[(5, 100), (7, 102)]⟩,
       ⟨[],
        [⟨RESPONSE_SUCCESS, 5, 100, ""⟩, ⟨RESPONSE_SUCCESS, 0, 0, ""⟩,
         ⟨RESPONSE_DATA, 5, 100, ""⟩, ⟨RESPONSE_SUCCESS, -1, 0, ""⟩,
         ⟨RESPONSE_SUCCESS, 7, 102, ""⟩],
        [],
        true⟩) := by
  decide

/-- C11: N >= 1 handler threads, each with an Insert of the same number n > 0
that the store does not hold, run on the shared store under any interleaving of
their store calls and writes. Every schedule that gives each thread at least
three turns lets all of them return; and whenever all have returned, the store
has grown by exactly one entry (n, at the clock reading of one thread w),
thread w has answered Success and every other thread the duplicate Error:
exactly one Success frame and N - 1 duplicate Error frames. -/
theorem concurrent_inserts_one_winner (store0 : NumberStore) (init : List Thread) (n : Int)
    (uninit : Nat → Nat → IPCMessage) (sched : Schedule)
    (hwf : store0.numbers.WF) (hpos : 0 < n) (hout : store0.contains n = false)
    (hN : 1 ≤ init.length)
    (hinit : ∀ t ∈ init, ∃ msg, t.pc = .entry msg ∧ msg.type = INSERT ∧ msg.number = n) :
    ((∀ i, i < init.length → 3 ≤ turns sched i) →
      ∀ th ∈ (run ⟨store0, init⟩ uninit sched).threads, returned th = true) ∧
    ((∀ th ∈ (run ⟨store0, init⟩ uninit sched).threads, returned th = true) →
      (run ⟨store0, init⟩ uninit sched).store.size = store0.size + 1 ∧
      (run ⟨store0, init⟩ uninit sched).threads.length = init.length ∧
      ∃ w ts, w < init.length ∧
        (run ⟨store0, init⟩ uninit sched).store.numbers = (store0.numbers.emplace n ts).1 ∧
        (∀ i t0 th, init[i]? = some t0 →
          (run ⟨store0, init⟩ uninit sched).threads[i]? = some th →
          th.fd.sent = t0.fd.sent ++ [if i = w then insertSuccess n ts else insertDuplicate]) ∧
        (run ⟨store0, init⟩ uninit sched).threads.countP
          (fun th => decide (th.fd.sent.getLast? = some (insertSuccess n ts))) = 1 ∧
        (run ⟨store0, init⟩ uninit sched).threads.countP
          (fun th => decide (th.fd.sent.getLast? = some insertDuplicate))
          = init.length - 1) := by
  have hlen := run_length ⟨store0, init⟩ uninit sched
  simp only [] at hlen
  constructor
  · intro hfair th hth
    obtain ⟨i, hi⟩ := List.getElem?_of_mem hth
    have hilt : i < init.length := by
      by_contra hge
      rw [List.getElem?_eq_none (by omega)] at hi
      cases hi
    have hb := budget_run ⟨store0, init⟩ uninit sched (fun _ => 3) (by
      intro j t hj
      obtain ⟨msg, hpc, ht, -⟩ := hinit t (List.getElem?_mem hj)
      refine ⟨?_, by simp [hpc, remaining]⟩
      intro m hm
      rw [hpc] at hm
      cases hm
      exact ht) i th hi
    have h3 := hfair i hilt
    have hz : remaining th.pc = 0 := by
      have := hb.2
      simp only [] at this
      omega
    simp [returned, remaining_eq_zero th.pc hz]
  · intro hdone
    have hr := raced_run store0 init n uninit sched ⟨store0, init⟩ hwf hpos hout hinit
      (Or.inl ⟨rfl, rfl⟩)
    rcases hr with ⟨-, hth⟩ | ⟨w, ts, hw, hs, -, hall⟩
    · exfalso
      obtain ⟨t0, h0⟩ : ∃ t0, init[0]? = some t0 :=
        ⟨init[0], List.getElem?_eq_getElem (by omega)⟩
      have hmem : t0 ∈ init := List.getElem?_mem h0
      obtain ⟨msg, hpc, -⟩ := hinit t0 hmem
      have := hdone t0 (by rw [hth]; exact hmem)
      simp [returned, hpc] at this
    · have hsent : ∀ i t0 th, init[i]? = some t0 →
          (run ⟨store0, init⟩ uninit sched).threads[i]? = some th →
          th.fd.sent = t0.fd.sent ++ [if i = w then insertSuccess n ts else insertDuplicate] := by
        intro i t0 th h0 hi
        have hret : th.pc = .reply [] := by
          have := hdone th (List.getElem?_mem hi)
          simpa [returned] using this
        obtain ⟨hwin, hlose⟩ := hall i t0 th h0 hi
        by_cases hiw : i = w
        · rcases hwin hiw with ⟨-, msg, hpc, -⟩ | ⟨-, hpc⟩ | ⟨hfd, -⟩
          · rw [hret] at hpc; cases hpc
          · rw [hret] at hpc; cases hpc
          · rw [hfd, write_sent, if_pos hiw]
        · obtain ⟨msg, hpc0, -⟩ := hinit t0 (List.getElem?_mem h0)
          rcases hlose hiw with heq | ⟨-, hpc⟩ | ⟨hfd, -⟩
          · rw [heq, hpc0] at hret; cases hret
          · rw [hret] at hpc; cases hpc
          · rw [hfd, write_sent, if_neg hiw]
      have hne : insertSuccess n ts ≠ insertDuplicate := by
        intro he
        have := congrArg IPCMessage.type he
        simp [insertSuccess, insertDuplicate, RESPONSE_SUCCESS, RESPONSE_ERROR] at this
      have hcount := countP_one_winner (run ⟨store0, init⟩ uninit sched).threads
        (fun th => decide (th.fd.sent.getLast? = some (insertSuccess n ts)))
        (fun th => decide (th.fd.sent.getLast? = some insertDuplicate)) w
        (by rw [hlen]; exact hw) (by
          intro i th hi
          have hilt : i < init.length := by
            by_contra hge
            rw [List.getElem?_eq_none (by omega)] at hi
            cases hi
          have h0 : init[i]? = some init[i] := List.getElem?_eq_getElem hilt
          have hs := hsent i _ th h0 hi
          by_cases hiw : i = w
          · simp [hs, hiw, List.getLast?_concat, hne]
          · simp [hs, hiw, List.getLast?_concat, hne.symm])
      refine ⟨?_, hlen, w, ts, hw, by rw [hs], hsent, hcount.1, by rw [hcount.2, hlen]⟩
      rw [hs]
      exact StdMap.length_emplace store0.numbers n ts hout

/-- C11 on three threads racing to insert 7 into a store holding 3. -/
theorem concurrent_inserts_one_winner_witness :
    StdMap.WF [(3, 100)] ∧ (0 : Int) < 7 ∧
    NumberStore.contains ⟨[(3, 100)]⟩ 7 = false ∧
    (run ⟨⟨[(3, 100)]⟩,
        [insertThread freshClient 7, insertThread freshClient 7, insertThread freshClient 7]⟩
      (fun _ _ => zeroed)
      [(1, 200), (0, 201), (1, 202), (2, 203), (2, 204), (0, 205), (1, 206)]).store.size
      = 2 :=
  ⟨by decide, by decide, rfl,
   ((concurrent_inserts_one_winner ⟨[(3, 100)]⟩
      [insertThread freshClient 7, insertThread freshClient 7, insertThread freshClient 7] 7
      (fun _ _ => zeroed)
      [(1, 200), (0, 201), (1, 202), (2, 203), (2, 204), (0, 205), (1, 206)]
      (by decide) (by decide) rfl (by decide)
      (by
        intro t ht
        simp only [List.mem_cons, List.mem_singleton, List.not_mem_nil, or_false, or_self] at ht
        subst ht
        exact ⟨request INSERT 7, rfl, rfl, rfl⟩)).2 (by decide)).1⟩

end NumberDaemon
